import Mathlib

/-!
# Verification of two LTP test cases

Shallow embedding of

* `testcases/kernel/mem/mtest06/mmap1.c` (namespace `Mmap1`): the signal
  handler, the backing file, the writer and reader threads and the driver;
* `testcases/kernel/syscalls/msync/msync04.c` (namespace `Msync04`): the
  dirty-bit lookup.

Bytes are natural numbers below 256, C `int`, `long` and `sig_atomic_t` values
are integers, `uint64_t` values are natural numbers reduced modulo `2 ^ 64`.
System calls that the tests wrap in `SAFE_*` macros either succeed or abort the
whole test, so only their successful outcome is modelled unless said otherwise.
-/

namespace Msync04

/-- The two proc files that `get_dirty_bit` opens. -/
inductive ProcFile where
  | pagemap
  | kpageflags
  deriving DecidableEq, Repr

/-- What a call of `get_dirty_bit` produces: the returned `uint64_t` and the
reads it performed, each as the file and the byte offset given to `lseek`. -/
structure DirtyResult where
  value : Nat
  reads : List (ProcFile × Nat)
  deriving DecidableEq, Repr

/-- The function `get_dirty_bit` of msync04.c (lines 35 to 53).  `pagesize` is the
global `long`; `pagemap` and `kpageflags` give the 8 bytes found at a byte offset
of `/proc/self/pagemap` and `/proc/kpageflags`.  `addr / pagesize` is computed in
`unsigned long`, after the usual conversion of `pagesize`. -/
def get_dirty_bit (pagesize : Int) (pagemap kpageflags : Nat → Nat) (addr : Nat) :
    DirtyResult :=
  let index := (addr / (pagesize % 2 ^ 64).toNat * 8) % 2 ^ 64
  let pagemap_entry := pagemap index % 2 ^ 64
  let pfn := pagemap_entry &&& (2 ^ 55 - 1)
  if pfn = 0 then
    ⟨0, [(ProcFile.pagemap, index)]⟩
  else
    let index2 := (pfn * 8) % 2 ^ 64
    let pagemap_entry2 := kpageflags index2 % 2 ^ 64
    ⟨pagemap_entry2 &&& 2 ^ 4, [(ProcFile.pagemap, index), (ProcFile.kpageflags, index2)]⟩

end Msync04

namespace Mmap1

/-- Signal number of SIGSEGV on Linux (from the C library headers). -/
def SIGSEGV : Int := 11

/-- Signal number of SIGALRM on Linux (from the C library headers). -/
def SIGALRM : Int := 14

/-- The fill byte, the character constant of the C source written as 'a'. -/
def FILL : Nat := 97

/-- The globals of mmap1.c that the signal handler can see. -/
structure Globals where
  map_address : Nat
  active_map : Int
  test_end : Int
  deriving DecidableEq, Repr

/-- How a call of the handler ends: it returns to the interrupted instruction,
or it leaves through `longjmp (jmpbuf, val)`. -/
inductive Control where
  | returned
  | longjmp (val : Int)
  deriving DecidableEq, Repr

/-- The function `sig_handler` of mmap1.c (lines 63 to 79); the informational
`tst_res` line changes no global and is left out. -/
def sig_handler (signal : Int) (g : Globals) : Globals × Control :=
  if signal = SIGSEGV then
    if g.active_map ≠ 0 then
      (⟨g.map_address, g.active_map, signal⟩, Control.returned)
    else
      (g, Control.longjmp 1)
  else
    (⟨g.map_address, g.active_map, signal⟩, Control.returned)

/-- Conversion of a 64-bit `long` to a 32-bit `int` (the value modulo `2 ^ 32`,
taken in the range of `int`), as done when `file_size` is passed to `mkfile`. -/
def long_to_int (x : Int) : Int :=
  let m := x % 2 ^ 32
  if m < 2 ^ 31 then m else m - 2 ^ 32

/-- The loop `for (i = 0; i < size; i++) SAFE_WRITE (1, fd, "a", 1)` of `mkfile`,
started at counter `i` with the bytes `file` already written. -/
def mkfile_fill (size : Int) (i : Int) (file : List Nat) : List Nat :=
  if i < size then mkfile_fill size (i + 1) (file ++ [FILL]) else file
termination_by (size - i).toNat
decreasing_by omega

/-- The function `mkfile` of mmap1.c (lines 134 to 150): the contents of the
unlinked temporary file behind the returned descriptor.  `size` is the value of
the `int` parameter; a caller that holds a `long` passes `long_to_int` of it. -/
def mkfile (size : Int) : List Nat :=
  mkfile_fill size 0 [] ++ [0]

/-! ### The shared mapping -/

/-- The backing file together with the state of the shared mapping: `file` is the
contents of the file (a `MAP_SHARED` mapping reads and writes the file itself),
`mapped` tells whether the mapping at `map_address` exists, `active_map` is the C
global of that name. -/
structure Mapping where
  file : List Nat
  mapped : Bool
  active_map : Int
  deriving DecidableEq, Repr

/-- Line 169: `map_address = SAFE_MMAP (...)`, returning successfully. -/
def do_mmap (m : Mapping) : Mapping := ⟨m.file, true, m.active_map⟩

/-- Line 172: `active_map = 1`. -/
def set_active (m : Mapping) : Mapping := ⟨m.file, m.mapped, 1⟩

/-- Line 181: `map_address[j] = 97`, the store of the fill byte.  Without a
mapping the store faults and changes nothing. -/
def store (m : Mapping) (j : Nat) : Mapping :=
  if m.mapped then ⟨m.file.set j FILL, m.mapped, m.active_map⟩ else m

/-- Line 196: `active_map = 0`. -/
def clear_active (m : Mapping) : Mapping := ⟨m.file, m.mapped, 0⟩

/-- Line 197: `SAFE_MUNMAP (map_address, ...)`. -/
def do_munmap (m : Mapping) : Mapping := ⟨m.file, false, m.active_map⟩

/-- The state in which the threads of one outer iteration start: the file just
made, no mapping, `active_map` zero. -/
def Mapping.start (file : List Nat) : Mapping := ⟨file, false, 0⟩

/-- The three steps of the writer as seen by the reader, which only observes the
mapping under `thread_lock`: lines 168 to 173, one turn of the fill loop that
got the lock, lines 195 to 198. -/
inductive WriterOp where
  | map
  | write (j : Nat)
  | unmap
  deriving DecidableEq, Repr

/-- Effect of one writer step on the mapping whose size is `S`; the fill loop
stores only at offsets below `S`. -/
def writer_op (S : Nat) (m : Mapping) : WriterOp → Mapping
  | WriterOp.map => set_active (do_mmap m)
  | WriterOp.write j => if j < S then store m j else m
  | WriterOp.unmap => do_munmap (clear_active m)

/-- Effect of a sequence of writer steps. -/
def writer_ops (S : Nat) (m : Mapping) (ops : List WriterOp) : Mapping :=
  ops.foldl (writer_op S) m

/-! ### The reader -/

/-- Outcome of one byte access `map_address[j]` of the reader: the byte, or a
fault from which the handler recovers through `longjmp`. -/
inductive Access where
  | Ok (b : Nat)
  | Faulted
  deriving DecidableEq, Repr

/-- End of the last page that holds bytes of a file of `len` bytes, for pages of
`pagesize` bytes. -/
def page_end (pagesize len : Nat) : Nat :=
  (len + pagesize - 1) / pagesize * pagesize

/-- The access `map_address[j]` of line 237 on a given mapping, for an offset
inside the mapped range.  With the mapping present the access gives the byte of
the file, the zero byte past the end of the file inside its last page, and
raises SIGBUS beyond that page: no handler is installed for it, the process dies
and the access has no outcome.  Without a mapping the access raises SIGSEGV and
sig_handler decides: when it leaves through `longjmp` the access has faulted,
when it returns the access is repeated and has no outcome here. -/
def access_of (pagesize : Nat) (m : Mapping) (j : Nat) : Option Access :=
  if m.mapped then
    match m.file[j]? with
    | some b => some (Access.Ok b)
    | none => if j < page_end pagesize m.file.length then some (Access.Ok 0) else none
  else
    match (sig_handler SIGSEGV ⟨0, m.active_map, 0⟩).2 with
    | Control.longjmp _ => some Access.Faulted
    | Control.returned => none

/-- The outcomes `mem` are those of a reader whose access number `k` is made
while the mapping is in the state `st k`. -/
def reads_in (pagesize : Nat) (st : Nat → Mapping) (mem : Nat → Nat → Access) : Prop :=
  ∀ k j a, access_of pagesize (st k) j = some a → mem k j = a

/-- How one pass of the loop of lines 235 to 244 ends. -/
inductive PassEnd where
  | completed
  | faulted
  | mismatch
  deriving DecidableEq, Repr

/-- The loop `for (j = 0; j < args[1]; j++)` of read_mem (lines 235 to 244), from
offset `j` on.  `mem k j` is the outcome of the access number `k` of the thread
when made at offset `j`; the result lists the accesses made, as offset and
outcome.  `sched_yield` changes nothing that is modelled. -/
def read_pass (mem : Nat → Nat → Access) (S : Nat) (j k : Nat) :
    PassEnd × List (Nat × Access) :=
  if j < S then
    match mem k j with
    | Access.Faulted => (PassEnd.faulted, [(j, Access.Faulted)])
    | Access.Ok b =>
      if b ≠ FILL then (PassEnd.mismatch, [(j, Access.Ok b)])
      else
        let r := read_pass mem S (j + 1) (k + 1)
        (r.1, (j, Access.Ok b) :: r.2)
  else (PassEnd.completed, [])
termination_by S - j

/-- What read_mem leaves behind: the exit status given to `pthread_exit` (the
pointer seen as a `long`: 0 for NULL), the accesses made and the number of
iterations of the outer loop that were begun. -/
structure ReadResult where
  status : Int
  trace : List (Nat × Access)
  iterations : Nat
  deriving DecidableEq, Repr

/-- The loop `for (i = 0; i < args[2]; i++)` of read_mem (lines 217 to 247), from
iteration `i` on, `k` accesses having been made.  `print_faults i` tells whether
the verbose print of iteration `i` (lines 228 to 233) faults, in which case
`setjmp` returns 1 and the iteration is over; it is constantly false in a run
without the verbose option. -/
def read_loop (mem : Nat → Nat → Access) (print_faults : Nat → Bool) (S N : Nat)
    (i k : Nat) : ReadResult :=
  if i < N then
    if print_faults i then
      read_loop mem print_faults S N (i + 1) k
    else
      let p := read_pass mem S 0 k
      match p.1 with
      | PassEnd.mismatch => ⟨-1, p.2, i + 1⟩
      | _ =>
        let r := read_loop mem print_faults S N (i + 1) (k + p.2.length)
        ⟨r.status, p.2 ++ r.trace, r.iterations⟩
  else ⟨0, [], i⟩
termination_by N - i

/-- The thread function `read_mem` with `args[1] = S` and `args[2] = N`. -/
def read_mem (mem : Nat → Nat → Access) (print_faults : Nat → Bool) (S N : Nat) :
    ReadResult :=
  read_loop mem print_faults S N 0 0

/-- An access that shows a byte other than the fill byte. -/
def is_mismatch (x : Nat × Access) : Prop :=
  ∃ b, x.2 = Access.Ok b ∧ b ≠ FILL

/-- The accesses of a pass that ends without a mismatch: the fill byte at the
offsets 0 to `S - 1`, or the fill byte at the offsets below some `q < S` and a
fault at `q`. -/
def clean_pass (S : Nat) (p : List (Nat × Access)) : Prop :=
  p = (List.range S).map (fun t => (t, Access.Ok FILL)) ∨
  ∃ q, q < S ∧ p = (List.range q).map (fun t => (t, Access.Ok FILL)) ++ [(q, Access.Faulted)]

/-- The accesses of a pass that ends with a mismatch: the fill byte at the
offsets below some `q < S` and another byte at `q`. -/
def bad_pass (S : Nat) (p : List (Nat × Access)) : Prop :=
  ∃ q b, q < S ∧ b ≠ FILL ∧
    p = (List.range q).map (fun t => (t, Access.Ok FILL)) ++ [(q, Access.Ok b)]

/-- Number of the iterations `i ≤ t < i + n` whose verbose print does not
fault, that is, of the iterations that come to their pass. -/
def passes_in (pf : Nat → Bool) (i n : Nat) : Nat :=
  ((List.range' i n).filter (fun t => !pf t)).length

/-! ### The fill loop of the writer -/

/-- The places of map_write_unmap between which another thread can run. -/
inductive Pc where
  | loop_head
  | lock1
  | mmap
  | set_active
  | unlock1
  | fill_head
  | trylock
  | write
  | unlock2
  | yield
  | lock2
  | clear_active
  | munmap
  | unlock3
  | exit
  | aborted
  deriving DecidableEq, Repr

/-- The threads that take `thread_lock`. -/
inductive Holder where
  | writer
  | reader
  deriving DecidableEq, Repr

/-- State of the writer thread, the mapping and the mutex. -/
structure WState where
  pc : Pc
  i : Nat
  j : Nat
  m : Mapping
  lock : Option Holder
  deriving DecidableEq, Repr

/-- A move of the system: the writer executes its next statement (`r` is what
the environment decides there: whether `mmap` and `munmap` succeed), or the
reader takes or releases the mutex. -/
inductive Action where
  | writer (r : Bool)
  | reader_lock
  | reader_unlock
  deriving DecidableEq, Repr

/-- One statement of map_write_unmap (lines 167 to 201) with `args[2] = N` and
`args[1] = S`; `none` when the thread cannot move (it waits for the mutex, or it
is over).  A failing `SAFE_MMAP` or `SAFE_MUNMAP` ends the test. -/
def writer_step (N S : Nat) (s : WState) (r : Bool) : Option WState :=
  match s.pc with
  | Pc.loop_head =>
    if s.i < N then some ⟨Pc.lock1, s.i, s.j, s.m, s.lock⟩
    else some ⟨Pc.exit, s.i, s.j, s.m, s.lock⟩
  | Pc.lock1 =>
    if s.lock = none then some ⟨Pc.mmap, s.i, s.j, s.m, some Holder.writer⟩ else none
  | Pc.mmap =>
    if r then some ⟨Pc.set_active, s.i, s.j, do_mmap s.m, s.lock⟩
    else some ⟨Pc.aborted, s.i, s.j, s.m, s.lock⟩
  | Pc.set_active => some ⟨Pc.unlock1, s.i, s.j, set_active s.m, s.lock⟩
  | Pc.unlock1 => some ⟨Pc.fill_head, s.i, 0, s.m, none⟩
  | Pc.fill_head =>
    if s.j < S then some ⟨Pc.trylock, s.i, s.j, s.m, s.lock⟩
    else some ⟨Pc.lock2, s.i, s.j, s.m, s.lock⟩
  | Pc.trylock =>
    if s.lock = none then some ⟨Pc.write, s.i, s.j, s.m, some Holder.writer⟩
    else some ⟨Pc.yield, s.i, s.j, s.m, s.lock⟩
  | Pc.write => some ⟨Pc.unlock2, s.i, s.j + 1, store s.m s.j, s.lock⟩
  | Pc.unlock2 => some ⟨Pc.yield, s.i, s.j, s.m, none⟩
  | Pc.yield => some ⟨Pc.fill_head, s.i, s.j, s.m, s.lock⟩
  | Pc.lock2 =>
    if s.lock = none then some ⟨Pc.clear_active, s.i, s.j, s.m, some Holder.writer⟩
    else none
  | Pc.clear_active => some ⟨Pc.munmap, s.i, s.j, clear_active s.m, s.lock⟩
  | Pc.munmap =>
    if r then some ⟨Pc.unlock3, s.i, s.j, do_munmap s.m, s.lock⟩
    else some ⟨Pc.aborted, s.i, s.j, s.m, s.lock⟩
  | Pc.unlock3 => some ⟨Pc.loop_head, s.i + 1, s.j, s.m, none⟩
  | Pc.exit => none
  | Pc.aborted => none

/-- One move of the system. -/
def step (N S : Nat) (s : WState) : Action → Option WState
  | Action.writer r => writer_step N S s r
  | Action.reader_lock =>
    if s.lock = none then some ⟨s.pc, s.i, s.j, s.m, some Holder.reader⟩ else none
  | Action.reader_unlock =>
    if s.lock = some Holder.reader then some ⟨s.pc, s.i, s.j, s.m, none⟩ else none

/-- The moves of a list, one after the other; `none` when one of them is not
possible. -/
def run (N S : Nat) (s : WState) : List Action → Option WState
  | [] => some s
  | a :: rest =>
    match step N S s a with
    | some t => run N S t rest
    | none => none

/-- The state in which map_write_unmap is entered. -/
def WState.start (file : List Nat) : WState :=
  ⟨Pc.loop_head, 0, 0, Mapping.start file, none⟩

/-- What holds at each place of map_write_unmap: whether the mapping exists,
the value of `active_map`, whether the writer holds the mutex, and how far the
iteration counter is. -/
def pc_inv (N : Nat) (s : WState) : Prop :=
  match s.pc with
  | Pc.loop_head => s.m.mapped = false ∧ s.m.active_map = 0 ∧ s.i ≤ N
  | Pc.lock1 => s.m.mapped = false ∧ s.m.active_map = 0 ∧ s.i < N
  | Pc.mmap =>
    s.m.mapped = false ∧ s.m.active_map = 0 ∧ s.i < N ∧ s.lock = some Holder.writer
  | Pc.set_active =>
    s.m.mapped = true ∧ s.m.active_map = 0 ∧ s.i < N ∧ s.lock = some Holder.writer
  | Pc.unlock1 =>
    s.m.mapped = true ∧ s.m.active_map = 1 ∧ s.i < N ∧ s.lock = some Holder.writer
  | Pc.fill_head => s.m.mapped = true ∧ s.m.active_map = 1 ∧ s.i < N
  | Pc.trylock => s.m.mapped = true ∧ s.m.active_map = 1 ∧ s.i < N
  | Pc.write =>
    s.m.mapped = true ∧ s.m.active_map = 1 ∧ s.i < N ∧ s.lock = some Holder.writer
  | Pc.unlock2 =>
    s.m.mapped = true ∧ s.m.active_map = 1 ∧ s.i < N ∧ s.lock = some Holder.writer
  | Pc.yield => s.m.mapped = true ∧ s.m.active_map = 1 ∧ s.i < N
  | Pc.lock2 => s.m.mapped = true ∧ s.m.active_map = 1 ∧ s.i < N
  | Pc.clear_active =>
    s.m.mapped = true ∧ s.m.active_map = 1 ∧ s.i < N ∧ s.lock = some Holder.writer
  | Pc.munmap =>
    s.m.mapped = true ∧ s.m.active_map = 0 ∧ s.i < N ∧ s.lock = some Holder.writer
  | Pc.unlock3 =>
    s.m.mapped = false ∧ s.m.active_map = 0 ∧ s.i < N ∧ s.lock = some Holder.writer
  | Pc.exit => s.m.mapped = false ∧ s.m.active_map = 0 ∧ s.i ≤ N
  | Pc.aborted => s.m.active_map = 0 ∧ s.i < N ∧ s.lock = some Holder.writer

/-! ### The driver -/

/-- The verdicts that test_mmap1 reports with `tst_res`. -/
inductive Res where
  | TPASS
  | TFAIL
  deriving DecidableEq, Repr

/-- What the driver does that can be seen from outside: it makes a backing
file, it reports a verdict, it returns. -/
inductive DEvent where
  | mkfile (file : List Nat)
  | res (r : Res)
  | ret
  deriving DecidableEq, Repr

/-- What one outer iteration hands to the driver at the join: the exit status
of the writer and of the reader (the pointers seen as `long`), and the signals
handled meanwhile, each with the value `active_map` had at that moment. -/
structure Joined where
  status0 : Int
  status1 : Int
  signals : List (Int × Int)
  deriving DecidableEq, Repr

/-- The latch `test_end` after the handler has run for each signal of a list. -/
def latch (signals : List (Int × Int)) (test_end : Int) : Int :=
  signals.foldl (fun te sg => (sig_handler sg.1 ⟨0, sg.2, te⟩).1.test_end) test_end

/-- The loop of lines 276 to 281: a report for every non-null exit status. -/
def join_reports (it : Joined) : List DEvent :=
  (if it.status0 ≠ 0 then [DEvent.res Res.TFAIL] else []) ++
  (if it.status1 ≠ 0 then [DEvent.res Res.TFAIL] else [])

/-- The `switch (test_end)` of lines 284 to 294: what is reported, and whether
the loop goes on (`true`) or test_mmap1 returns (`false`). -/
def switch_test_end (test_end : Int) : List DEvent × Bool :=
  if test_end = 0 then ([], true)
  else if test_end = SIGALRM then ([DEvent.res Res.TPASS, DEvent.ret], false)
  else ([DEvent.res Res.TFAIL, DEvent.ret], false)

/-- The loop `for (;;)` of test_mmap1 (lines 260 to 295) on the outer iterations
that come to their join; when the list is used up the driver has made the next
file and waits for its threads. -/
def driver_loop (file_size : Int) : List Joined → Int → List DEvent
  | [], _ => [DEvent.mkfile (mkfile (long_to_int file_size))]
  | it :: rest, test_end =>
    let te := latch it.signals test_end
    let sw := switch_test_end te
    [DEvent.mkfile (mkfile (long_to_int file_size))] ++ join_reports it ++ sw.1 ++
      (if sw.2 then driver_loop file_size rest te else [])

/-- The function `test_mmap1` (lines 250 to 296): whatever `test_end` holds on
entry, line 257 sets it to zero before the loop. -/
def test_mmap1 (file_size : Int) (_test_end_before : Int) (env : List Joined) :
    List DEvent :=
  driver_loop file_size env 0

end Mmap1

namespace Msync04

theorem and_mask_eq_mod (e : Nat) : e &&& (2 ^ 55 - 1) = e % 2 ^ 55 :=
  Nat.and_pow_two_sub_one_eq_mod e 55

end Msync04

namespace Mmap1

theorem mkfile_fill_eq (size : Int) (n : Nat) (i : Int) (file : List Nat)
    (h : size - i = n) : mkfile_fill size i file = file ++ List.replicate n FILL := by
  induction n generalizing i file with
  | zero =>
    rw [mkfile_fill, if_neg (by omega)]
    simp
  | succ n ih =>
    rw [mkfile_fill, if_pos (by omega), ih (i + 1) _ (by omega)]
    simp [List.replicate_succ]

end Mmap1

namespace Msync04

theorem and_bit4 (f : Nat) : f &&& 2 ^ 4 = if f.testBit 4 then 16 else 0 := by
  have h := Nat.and_two_pow f 4
  rw [h]
  cases f.testBit 4 <;> simp

theorem long_to_ulong (p : Nat) (hp : p < 2 ^ 64) : (((p : Int) % 2 ^ 64).toNat) = p := by
  have h : ((p : Int) % 2 ^ 64) = ((p % 2 ^ 64 : Nat) : Int) := by
    push_cast
    rfl
  rw [h, Nat.mod_eq_of_lt hp]
  simp

theorem get_dirty_bit_eq (p addr : Nat) (pagemap kpageflags : Nat → Nat)
    (hp : p < 2 ^ 64) :
    get_dirty_bit (p : Int) pagemap kpageflags addr =
      if pagemap ((addr / p * 8) % 2 ^ 64) % 2 ^ 64 % 2 ^ 55 = 0 then
        ⟨0, [(ProcFile.pagemap, (addr / p * 8) % 2 ^ 64)]⟩
      else
        ⟨kpageflags (pagemap ((addr / p * 8) % 2 ^ 64) % 2 ^ 64 % 2 ^ 55 * 8) % 2 ^ 64 &&& 2 ^ 4,
          [(ProcFile.pagemap, (addr / p * 8) % 2 ^ 64),
           (ProcFile.kpageflags, pagemap ((addr / p * 8) % 2 ^ 64) % 2 ^ 64 % 2 ^ 55 * 8)]⟩ := by
  unfold get_dirty_bit
  simp only [long_to_ulong p hp, and_mask_eq_mod]
  have hlt : pagemap ((addr / p * 8) % 2 ^ 64) % 2 ^ 64 % 2 ^ 55 * 8 < 2 ^ 64 := by
    have := Nat.mod_lt (pagemap ((addr / p * 8) % 2 ^ 64) % 2 ^ 64) (show 0 < 2 ^ 55 by norm_num)
    omega
  rw [Nat.mod_eq_of_lt hlt]

theorem get_dirty_bit_cases (p addr : Nat) (pagemap kpageflags : Nat → Nat)
    (hp : 0 < p) (hp63 : p < 2 ^ 63) (ha : addr < 2 ^ 64) :
    let off := (addr / p * 8) % 2 ^ 64
    let e := pagemap off % 2 ^ 64
    let pfn := e % 2 ^ 55
    let f := kpageflags (pfn * 8) % 2 ^ 64
    let r := get_dirty_bit (p : Int) pagemap kpageflags addr
    (8 ≤ p → off = addr / p * 8) ∧
    (pfn = 0 → r.value = 0 ∧ r.reads = [(ProcFile.pagemap, off)]) ∧
    (pfn ≠ 0 → r.value = f &&& 2 ^ 4 ∧
      r.reads = [(ProcFile.pagemap, off), (ProcFile.kpageflags, pfn * 8)]) ∧
    (r.value = 0 ∨ r.value = 16) ∧
    (r.value ≠ 0 ↔ pfn ≠ 0 ∧ f.testBit 4 = true) ∧
    (∀ pagemap2 : Nat → Nat, pagemap2 off % 2 ^ 55 = e % 2 ^ 55 →
      (get_dirty_bit (p : Int) pagemap2 kpageflags addr).value = r.value) := by
  intro off e pfn f r
  have hp64 : p < 2 ^ 64 := by omega
  have hr : r = get_dirty_bit (p : Int) pagemap kpageflags addr := rfl
  rw [get_dirty_bit_eq p addr pagemap kpageflags hp64] at hr
  refine ⟨?_, ?_, ?_, ?_, ?_, ?_⟩
  · intro h8
    apply Nat.mod_eq_of_lt
    have h1 : addr / p ≤ addr / 8 := Nat.div_le_div_left h8 (by norm_num)
    omega
  · intro h0
    have h0' : pagemap ((addr / p * 8) % 2 ^ 64) % 2 ^ 64 % 2 ^ 55 = 0 := h0
    rw [if_pos h0'] at hr
    rw [hr]
    exact ⟨rfl, rfl⟩
  · intro h0
    have h0' : ¬ pagemap ((addr / p * 8) % 2 ^ 64) % 2 ^ 64 % 2 ^ 55 = 0 := h0
    rw [if_neg h0'] at hr
    rw [hr]
    exact ⟨rfl, rfl⟩
  · by_cases h0 : pagemap ((addr / p * 8) % 2 ^ 64) % 2 ^ 64 % 2 ^ 55 = 0
    · rw [if_pos h0] at hr
      rw [hr]
      exact Or.inl rfl
    · rw [if_neg h0] at hr
      rw [hr]
      show _ &&& 2 ^ 4 = 0 ∨ _ &&& 2 ^ 4 = 16
      rw [and_bit4]
      split <;> simp
  · by_cases h0 : pagemap ((addr / p * 8) % 2 ^ 64) % 2 ^ 64 % 2 ^ 55 = 0
    · rw [if_pos h0] at hr
      rw [hr]
      have : pfn = 0 := h0
      simp [this]
    · rw [if_neg h0] at hr
      rw [hr]
      have hpfn : pfn ≠ 0 := h0
      show f &&& 2 ^ 4 ≠ 0 ↔ _
      rw [and_bit4]
      cases f.testBit 4 <;> simp [hpfn]
  · intro pagemap2 h2
    rw [hr, get_dirty_bit_eq p addr pagemap2 kpageflags hp64]
    have h3 : pagemap2 ((addr / p * 8) % 2 ^ 64) % 2 ^ 64 % 2 ^ 55 =
        pagemap ((addr / p * 8) % 2 ^ 64) % 2 ^ 64 % 2 ^ 55 := by
      have hd : (2 : Nat) ^ 55 ∣ 2 ^ 64 := Nat.pow_dvd_pow 2 (by norm_num)
      rw [Nat.mod_mod_of_dvd _ hd]
      exact h2
    rw [h3]

end Msync04

namespace Mmap1

theorem mkfile_eq (size : Int) : mkfile size = List.replicate size.toNat FILL ++ [0] := by
  unfold mkfile
  by_cases h : 0 ≤ size
  · rw [mkfile_fill_eq size size.toNat 0 [] (by omega)]
    simp
  · rw [mkfile_fill, if_neg (by omega)]
    have : size.toNat = 0 := by omega
    simp [this]

theorem mkfile_nat (S : Nat) : mkfile (S : Int) = List.replicate S FILL ++ [0] := by
  rw [mkfile_eq]
  simp

theorem long_to_int_small (S : Int) (h0 : 0 ≤ S) (h1 : S < 2 ^ 31) : long_to_int S = S := by
  unfold long_to_int
  have : S % 2 ^ 32 = S := Int.emod_eq_of_lt h0 (by omega)
  simp only [this]
  rw [if_pos h1]

/-- C2 (sig_handler): for every signal and every value of the globals the handler
does one of three things: on SIGSEGV with `active_map` non-zero it stores SIGSEGV
in `test_end` and returns; on SIGSEGV with `active_map` zero it leaves through
`longjmp` with value 1 and changes no global; on any other signal (SIGALRM is
one) it stores the signal in `test_end` and returns.  `active_map` and
`map_address` are never changed. -/
theorem sig_handler_cases (s : Int) (g : Globals) :
    (s = SIGSEGV ∧ g.active_map ≠ 0 →
      sig_handler s g = (⟨g.map_address, g.active_map, SIGSEGV⟩, Control.returned)) ∧
    (s = SIGSEGV ∧ g.active_map = 0 →
      sig_handler s g = (g, Control.longjmp 1)) ∧
    (s ≠ SIGSEGV →
      sig_handler s g = (⟨g.map_address, g.active_map, s⟩, Control.returned)) ∧
    (sig_handler SIGALRM g = (⟨g.map_address, g.active_map, SIGALRM⟩, Control.returned)) ∧
    (sig_handler s g).1.active_map = g.active_map ∧
    (sig_handler s g).1.map_address = g.map_address := by
  refine ⟨?_, ?_, ?_, ?_, ?_, ?_⟩
  · rintro ⟨rfl, h⟩
    simp [sig_handler, h]
  · rintro ⟨rfl, h⟩
    simp [sig_handler, h]
  · intro h
    simp [sig_handler, h]
  · simp [sig_handler, SIGALRM, SIGSEGV]
  · unfold sig_handler
    split
    · split <;> rfl
    · rfl
  · unfold sig_handler
    split
    · split <;> rfl
    · rfl

/-- For a size that fits an `int` the file made for test_mmap1 is `S` fill bytes
followed by one null byte, `S + 1` bytes in all. -/
theorem mkfile_file_size_in_range (S : Nat) (h : (S : Int) < 2 ^ 31) :
    mkfile (long_to_int (S : Int)) = List.replicate S FILL ++ [0] ∧
    (mkfile (long_to_int (S : Int))).length = S + 1 := by
  rw [long_to_int_small (S : Int) (by omega) h, mkfile_nat]
  simp

/-! ### The reader: one pass -/

theorem read_pass_ge (mem : Nat → Nat → Access) (S j k : Nat) (h : ¬ j < S) :
    read_pass mem S j k = (PassEnd.completed, []) := by
  rw [read_pass, if_neg h]

theorem read_pass_faulted (mem : Nat → Nat → Access) (S j k : Nat) (h : j < S)
    (hm : mem k j = Access.Faulted) :
    read_pass mem S j k = (PassEnd.faulted, [(j, Access.Faulted)]) := by
  rw [read_pass, if_pos h, hm]

theorem read_pass_bad (mem : Nat → Nat → Access) (S j k b : Nat) (h : j < S)
    (hm : mem k j = Access.Ok b) (hb : b ≠ FILL) :
    read_pass mem S j k = (PassEnd.mismatch, [(j, Access.Ok b)]) := by
  rw [read_pass, if_pos h, hm]
  simp [hb]

theorem read_pass_good (mem : Nat → Nat → Access) (S j k : Nat) (h : j < S)
    (hm : mem k j = Access.Ok FILL) :
    read_pass mem S j k =
      ((read_pass mem S (j + 1) (k + 1)).1,
        (j, Access.Ok FILL) :: (read_pass mem S (j + 1) (k + 1)).2) := by
  rw [read_pass, if_pos h, hm]
  simp

theorem not_mismatch_fill (j : Nat) : ¬ is_mismatch (j, Access.Ok FILL) := by
  rintro ⟨b, hb, hne⟩
  simp only [Access.Ok.injEq] at hb
  exact hne hb.symm

theorem not_mismatch_faulted (j : Nat) : ¬ is_mismatch (j, Access.Faulted) := by
  rintro ⟨b, hb, _⟩
  simp at hb

theorem read_pass_cases (mem : Nat → Nat → Access) (S : Nat) :
    ∀ n j k, S - j = n →
      ((read_pass mem S j k).1 = PassEnd.mismatch →
        ∃ pre x, (read_pass mem S j k).2 = pre ++ [x] ∧ is_mismatch x ∧
          ∀ y ∈ pre, ¬ is_mismatch y) ∧
      ((read_pass mem S j k).1 ≠ PassEnd.mismatch →
        ∀ y ∈ (read_pass mem S j k).2, ¬ is_mismatch y) ∧
      (read_pass mem S j k).2.length ≤ S - j := by
  intro n
  induction n with
  | zero =>
    intro j k h
    rw [read_pass_ge mem S j k (by omega)]
    simp
  | succ n ih =>
    intro j k h
    have hj : j < S := by omega
    cases hm : mem k j with
    | Faulted =>
      rw [read_pass_faulted mem S j k hj hm]
      refine ⟨by simp, ?_, by simp; omega⟩
      intro _ y hy
      simp only [List.mem_singleton] at hy
      rw [hy]
      exact not_mismatch_faulted j
    | Ok b =>
      by_cases hb : b = FILL
      · subst hb
        rw [read_pass_good mem S j k hj hm]
        obtain ⟨h1, h2, h3⟩ := ih (j + 1) (k + 1) (by omega)
        refine ⟨?_, ?_, ?_⟩
        · intro he
          obtain ⟨pre, x, hx, hbad, hpre⟩ := h1 he
          refine ⟨(j, Access.Ok FILL) :: pre, x, ?_, hbad, ?_⟩
          · simp [hx]
          · intro y hy
            rcases List.mem_cons.mp hy with hy | hy
            · rw [hy]
              exact not_mismatch_fill j
            · exact hpre y hy
        · intro he y hy
          rcases List.mem_cons.mp hy with hy | hy
          · rw [hy]
            exact not_mismatch_fill j
          · exact h2 he y hy
        · simp only [List.length_cons]
          omega
      · rw [read_pass_bad mem S j k b hj hm hb]
        refine ⟨?_, by simp, by simp; omega⟩
        intro _
        exact ⟨[], (j, Access.Ok b), by simp, ⟨b, rfl, hb⟩, by simp⟩

/-- Every entry of the trace of a pass is the outcome that `mem` gives for that
access: entry `n` is made at offset `j + n` as access number `k + n`. -/
theorem read_pass_trace (mem : Nat → Nat → Access) (S : Nat) :
    ∀ n j k, S - j = n →
      (read_pass mem S j k).2 =
        (List.range (read_pass mem S j k).2.length).map
          (fun t => (j + t, mem (k + t) (j + t))) := by
  intro n
  induction n with
  | zero =>
    intro j k h
    rw [read_pass_ge mem S j k (by omega)]
    simp
  | succ n ih =>
    intro j k h
    have hj : j < S := by omega
    cases hm : mem k j with
    | Faulted =>
      rw [read_pass_faulted mem S j k hj hm]
      simp [List.range_succ, hm]
    | Ok b =>
      by_cases hb : b = FILL
      · subst hb
        rw [read_pass_good mem S j k hj hm]
        have h1 := ih (j + 1) (k + 1) (by omega)
        simp only [List.length_cons, List.range_succ_eq_map, List.map_cons, List.map_map]
        rw [← hm]
        congr 1
        conv_lhs => rw [h1]
        apply List.map_congr_left
        intro t _
        simp only [Function.comp, Nat.add_assoc, Nat.add_comm 1 t]
      · rw [read_pass_bad mem S j k b hj hm hb]
        simp [List.range_succ, hm]

/-! ### The reader: the outer loop -/

theorem read_loop_ge (mem : Nat → Nat → Access) (pf : Nat → Bool) (S N i k : Nat)
    (h : ¬ i < N) : read_loop mem pf S N i k = ⟨0, [], i⟩ := by
  rw [read_loop, if_neg h]

theorem read_loop_print (mem : Nat → Nat → Access) (pf : Nat → Bool) (S N i k : Nat)
    (h : i < N) (hp : pf i = true) :
    read_loop mem pf S N i k = read_loop mem pf S N (i + 1) k := by
  rw [read_loop, if_pos h, if_pos hp]

theorem read_loop_mismatch (mem : Nat → Nat → Access) (pf : Nat → Bool) (S N i k : Nat)
    (h : i < N) (hp : pf i = false)
    (hm : (read_pass mem S 0 k).1 = PassEnd.mismatch) :
    read_loop mem pf S N i k = ⟨-1, (read_pass mem S 0 k).2, i + 1⟩ := by
  rw [read_loop, if_pos h, if_neg (by simp [hp])]
  simp only [hm]

theorem read_loop_next (mem : Nat → Nat → Access) (pf : Nat → Bool) (S N i k : Nat)
    (h : i < N) (hp : pf i = false)
    (hm : (read_pass mem S 0 k).1 ≠ PassEnd.mismatch) :
    read_loop mem pf S N i k =
      ⟨(read_loop mem pf S N (i + 1) (k + (read_pass mem S 0 k).2.length)).status,
        (read_pass mem S 0 k).2 ++
          (read_loop mem pf S N (i + 1) (k + (read_pass mem S 0 k).2.length)).trace,
        (read_loop mem pf S N (i + 1) (k + (read_pass mem S 0 k).2.length)).iterations⟩ := by
  rw [read_loop, if_pos h, if_neg (by simp [hp])]
  cases he : (read_pass mem S 0 k).1 with
  | mismatch => exact absurd he hm
  | completed => simp only [he]
  | faulted => simp only [he]

theorem read_loop_cases (mem : Nat → Nat → Access) (pf : Nat → Bool) (S N : Nat) :
    ∀ n i k, N - i = n → i ≤ N →
      ((read_loop mem pf S N i k).status = -1 →
        ∃ pre x, (read_loop mem pf S N i k).trace = pre ++ [x] ∧ is_mismatch x ∧
          ∀ y ∈ pre, ¬ is_mismatch y) ∧
      ((read_loop mem pf S N i k).status ≠ -1 →
        (read_loop mem pf S N i k).status = 0 ∧
        (∀ y ∈ (read_loop mem pf S N i k).trace, ¬ is_mismatch y) ∧
        (read_loop mem pf S N i k).iterations = N) ∧
      (read_loop mem pf S N i k).iterations ≤ N ∧
      (read_loop mem pf S N i k).trace.length ≤ (N - i) * S := by
  intro n
  induction n with
  | zero =>
    intro i k h hi
    rw [read_loop_ge mem pf S N i k (by omega)]
    refine ⟨by simp, ?_, hi, by simp⟩
    intro _
    exact ⟨rfl, by simp, by simp; omega⟩
  | succ n ih =>
    intro i k h hi
    have hlt : i < N := by omega
    have hmul : (N - (i + 1)) * S + S = (N - i) * S := by
      have : N - i = (N - (i + 1)) + 1 := by omega
      rw [this, Nat.add_mul, Nat.one_mul]
    cases hp : pf i with
    | true =>
      rw [read_loop_print mem pf S N i k hlt hp]
      obtain ⟨h1, h2, h3, h4⟩ := ih (i + 1) k (by omega) (by omega)
      exact ⟨h1, h2, h3, by omega⟩
    | false =>
      obtain ⟨p1, p2, p3⟩ := read_pass_cases mem S S 0 k (by omega)
      by_cases hm : (read_pass mem S 0 k).1 = PassEnd.mismatch
      · rw [read_loop_mismatch mem pf S N i k hlt hp hm]
        refine ⟨fun _ => p1 hm, fun hne => absurd rfl hne, by simp; omega, ?_⟩
        simp only
        omega
      · rw [read_loop_next mem pf S N i k hlt hp hm]
        obtain ⟨h1, h2, h3, h4⟩ :=
          ih (i + 1) (k + (read_pass mem S 0 k).2.length) (by omega) (by omega)
        refine ⟨?_, ?_, h3, ?_⟩
        · intro hs
          obtain ⟨pre, x, hx, hbad, hpre⟩ := h1 hs
          refine ⟨(read_pass mem S 0 k).2 ++ pre, x, ?_, hbad, ?_⟩
          · simp only [hx, List.append_assoc]
          · intro y hy
            rcases List.mem_append.mp hy with hy | hy
            · exact p2 hm y hy
            · exact hpre y hy
        · intro hs
          obtain ⟨g1, g2, g3⟩ := h2 hs
          refine ⟨g1, ?_, g3⟩
          intro y hy
          rcases List.mem_append.mp hy with hy | hy
          · exact p2 hm y hy
          · exact g2 y hy
        · simp only [List.length_append]
          omega

/-! ### The fill byte below the mapping size -/

theorem start_holds_fill (S : Nat) :
    ∀ j, j < S → (Mapping.start (mkfile (S : Int))).file[j]? = some FILL := by
  intro j hj
  show (mkfile (S : Int))[j]? = some FILL
  rw [mkfile_nat, List.getElem?_append_left (by simpa using hj)]
  exact List.getElem?_replicate_of_lt hj

theorem store_holds_fill (S : Nat) (m : Mapping) (t : Nat)
    (h : ∀ j, j < S → m.file[j]? = some FILL) :
    ∀ j, j < S → (store m t).file[j]? = some FILL := by
  intro j hj
  unfold store
  split
  · show (m.file.set t FILL)[j]? = some FILL
    rw [List.getElem?_set]
    split
    · rename_i heq
      subst heq
      have hlen : t < m.file.length := by
        by_contra hge
        have := h t hj
        rw [List.getElem?_eq_none (by omega)] at this
        simp at this
      simp [hlen]
    · exact h j hj
  · exact h j hj

theorem store_flags (m : Mapping) (t : Nat) :
    (store m t).mapped = m.mapped ∧ (store m t).active_map = m.active_map := by
  unfold store
  split <;> exact ⟨rfl, rfl⟩

theorem writer_op_holds_fill (S : Nat) (m : Mapping) (op : WriterOp)
    (h : ∀ j, j < S → m.file[j]? = some FILL) :
    ∀ j, j < S → (writer_op S m op).file[j]? = some FILL := by
  cases op with
  | map => exact h
  | unmap => exact h
  | write t =>
    by_cases ht : t < S
    · simp only [writer_op, if_pos ht]
      exact store_holds_fill S m t h
    · simp only [writer_op, if_neg ht]
      exact h

theorem writer_op_active (S : Nat) (m : Mapping) (op : WriterOp)
    (h : m.active_map ≠ 0 ↔ m.mapped = true) :
    (writer_op S m op).active_map ≠ 0 ↔ (writer_op S m op).mapped = true := by
  cases op with
  | map => simp [writer_op, set_active, do_mmap]
  | unmap => simp [writer_op, clear_active, do_munmap]
  | write t =>
    by_cases ht : t < S
    · simp only [writer_op, if_pos ht]
      rw [(store_flags m t).1, (store_flags m t).2]
      exact h
    · simp only [writer_op, if_neg ht]
      exact h

theorem writer_ops_inv (S : Nat) (ops : List WriterOp) :
    ∀ m : Mapping, (∀ j, j < S → m.file[j]? = some FILL) →
      (m.active_map ≠ 0 ↔ m.mapped = true) →
      (∀ j, j < S → (writer_ops S m ops).file[j]? = some FILL) ∧
      ((writer_ops S m ops).active_map ≠ 0 ↔ (writer_ops S m ops).mapped = true) := by
  induction ops with
  | nil => intro m h1 h2; exact ⟨h1, h2⟩
  | cons op rest ih =>
    intro m h1 h2
    exact ih (writer_op S m op) (writer_op_holds_fill S m op h1) (writer_op_active S m op h2)

/-- Every access listed by a pass was made below the mapping size and is what
`mem` answers there. -/
theorem read_pass_mem (mem : Nat → Nat → Access) (S j k : Nat) :
    ∀ x ∈ (read_pass mem S j k).2, ∃ t, x.1 < S ∧ x.2 = mem t x.1 := by
  intro x hx
  rw [read_pass_trace mem S (S - j) j k rfl] at hx
  obtain ⟨t, ht, rfl⟩ := List.mem_map.mp hx
  have hlen := (read_pass_cases mem S (S - j) j k rfl).2.2
  have ht2 : t < (read_pass mem S j k).2.length := List.mem_range.mp ht
  exact ⟨k + t, by simp only; omega, rfl⟩

theorem read_loop_mem (mem : Nat → Nat → Access) (pf : Nat → Bool) (S N : Nat) :
    ∀ n i k, N - i = n →
      ∀ x ∈ (read_loop mem pf S N i k).trace, ∃ t, x.1 < S ∧ x.2 = mem t x.1 := by
  intro n
  induction n with
  | zero =>
    intro i k h
    rw [read_loop_ge mem pf S N i k (by omega)]
    simp
  | succ n ih =>
    intro i k h
    have hlt : i < N := by omega
    cases hp : pf i with
    | true =>
      rw [read_loop_print mem pf S N i k hlt hp]
      exact ih (i + 1) k (by omega)
    | false =>
      by_cases hm : (read_pass mem S 0 k).1 = PassEnd.mismatch
      · rw [read_loop_mismatch mem pf S N i k hlt hp hm]
        exact read_pass_mem mem S 0 k
      · rw [read_loop_next mem pf S N i k hlt hp hm]
        intro x hx
        rcases List.mem_append.mp hx with hx | hx
        · exact read_pass_mem mem S 0 k x hx
        · exact ih (i + 1) _ (by omega) x hx

/-- A reader whose accesses below `S` never show another byte than the fill byte
exits with the null status after `N` iterations. -/
theorem read_mem_clean (mem : Nat → Nat → Access) (pf : Nat → Bool) (S N : Nat)
    (h : ∀ t j b, j < S → mem t j = Access.Ok b → b = FILL) :
    (read_mem mem pf S N).status = 0 ∧ (read_mem mem pf S N).iterations = N ∧
    ∀ x ∈ (read_mem mem pf S N).trace, ¬ is_mismatch x := by
  obtain ⟨h1, h2, _, _⟩ := read_loop_cases mem pf S N N 0 0 (by omega) (by omega)
  have hne : (read_loop mem pf S N 0 0).status ≠ -1 := by
    intro hs
    obtain ⟨pre, x, hx, ⟨b, hb, hbad⟩, _⟩ := h1 hs
    obtain ⟨t, ht, hmem⟩ := read_loop_mem mem pf S N N 0 0 (by omega) x (by rw [hx]; simp)
    exact hbad (h t x.1 b ht (by rw [← hmem, hb]))
  obtain ⟨g1, g2, g3⟩ := h2 hne
  exact ⟨g1, g3, g2⟩

/-! ### The fill loop -/

theorem pc_inv_start (N : Nat) (file : List Nat) : pc_inv N (WState.start file) := by
  simp [pc_inv, WState.start, Mapping.start]

theorem pc_inv_step (N S : Nat) (s t : WState) (a : Action) (hs : pc_inv N s)
    (h : step N S s a = some t) : pc_inv N t := by
  obtain ⟨pc, i, j, m, lock⟩ := s
  cases a with
  | writer r =>
    cases pc <;> simp only [step, writer_step] at h <;> simp only [pc_inv] at hs
    all_goals (try split at h)
    all_goals (try simp only [Option.some.injEq, reduceCtorEq] at h)
    all_goals (try subst h)
    all_goals (try simp only [pc_inv, do_mmap, set_active, clear_active, do_munmap])
    all_goals (try (have hf := store_flags m j; simp only [hf.1, hf.2]))
    all_goals (try tauto)
  | reader_lock =>
    simp only [step] at h
    split at h
    · rename_i hl
      simp only [Option.some.injEq] at h
      subst h
      subst hl
      cases pc <;> simp only [pc_inv] at hs ⊢ <;> simp_all
    · simp at h
  | reader_unlock =>
    simp only [step] at h
    split at h
    · rename_i hl
      simp only [Option.some.injEq] at h
      subst h
      subst hl
      cases pc <;> simp only [pc_inv] at hs ⊢ <;> simp_all
    · simp at h

theorem pc_inv_run (N S : Nat) :
    ∀ (acts : List Action) (s t : WState), pc_inv N s → run N S s acts = some t →
      pc_inv N t := by
  intro acts
  induction acts with
  | nil =>
    intro s t hs h
    simp only [run, Option.some.injEq] at h
    rw [← h]
    exact hs
  | cons a rest ih =>
    intro s t hs h
    simp only [run] at h
    cases hst : step N S s a with
    | none => rw [hst] at h; simp at h
    | some u =>
      rw [hst] at h
      exact ih u t (pc_inv_step N S s u a hs hst) h

theorem step_guarded (N S : Nat) (s t : WState) (a : Action) (hs : pc_inv N s)
    (h : step N S s a = some t) :
    (t.m.active_map ≠ s.m.active_map ∨ t.m.mapped ≠ s.m.mapped →
      (∃ r, a = Action.writer r) ∧ s.lock = some Holder.writer ∧
        t.lock = some Holder.writer ∧ s.i < N) ∧
    (s.m.active_map ≠ 1 → t.m.active_map = 1 → s.m.mapped = true ∧ t.m.mapped = true) ∧
    (s.m.mapped = true → t.m.mapped = false → s.m.active_map = 0 ∧ t.m.active_map = 0) := by
  obtain ⟨pc, i, j, m, lock⟩ := s
  cases a with
  | writer r =>
    cases pc <;> simp only [step, writer_step] at h <;> simp only [pc_inv] at hs
    all_goals (try split at h)
    all_goals (try simp only [Option.some.injEq, reduceCtorEq] at h)
    all_goals (try subst h)
    all_goals (try simp only [do_mmap, set_active, clear_active, do_munmap])
    all_goals (try (have hf := store_flags m j; simp only [hf.1, hf.2]))
    all_goals (try simp_all)
  | reader_lock =>
    simp only [step] at h
    split at h
    · simp only [Option.some.injEq] at h
      subst h
      refine ⟨by simp, fun h1 h2 => absurd h2 h1, fun h1 h2 => ?_⟩
      rw [h1] at h2
      exact absurd h2 (by decide)
    · simp at h
  | reader_unlock =>
    simp only [step] at h
    split at h
    · simp only [Option.some.injEq] at h
      subst h
      refine ⟨by simp, fun h1 h2 => absurd h2 h1, fun h1 h2 => ?_⟩
      rw [h1] at h2
      exact absurd h2 (by decide)
    · simp at h

/-- C6 (map_write_unmap as a state machine): in every state that the writer and
the lock traffic of the reader can reach, for every iteration count, `active_map`
is 0 or 1 and `active_map = 1` implies that the mapping exists.  Every move that
changes `active_map` or the mapping is a move of the writer made while it holds
`thread_lock`, inside an iteration `i < N`; `active_map` becomes 1 only when the
mapping already exists, and the mapping is removed only when `active_map` is
already 0. -/
theorem active_map_implies_mapped (N S : Nat) (file : List Nat) (acts : List Action)
    (s : WState) (h : run N S (WState.start file) acts = some s) :
    (s.m.active_map = 0 ∨ (s.m.active_map = 1 ∧ s.m.mapped = true)) ∧
    (s.m.active_map = 1 → s.m.mapped = true) ∧
    s.i ≤ N ∧
    (∀ a t, step N S s a = some t →
      (t.m.active_map ≠ s.m.active_map ∨ t.m.mapped ≠ s.m.mapped →
        (∃ r, a = Action.writer r) ∧ s.lock = some Holder.writer ∧
          t.lock = some Holder.writer ∧ s.i < N) ∧
      (s.m.active_map ≠ 1 → t.m.active_map = 1 → s.m.mapped = true ∧ t.m.mapped = true) ∧
      (s.m.mapped = true → t.m.mapped = false →
        s.m.active_map = 0 ∧ t.m.active_map = 0)) := by
  have hinv := pc_inv_run N S acts (WState.start file) s (pc_inv_start N file) h
  have hcases : (s.m.active_map = 0 ∨ (s.m.active_map = 1 ∧ s.m.mapped = true)) ∧ s.i ≤ N := by
    obtain ⟨pc, i, j, m, lock⟩ := s
    cases pc <;> simp only [pc_inv] at hinv <;> simp only <;> constructor <;>
      first | omega | tauto
  refine ⟨hcases.1, ?_, hcases.2, fun a t hst => step_guarded N S s t a hinv hst⟩
  intro h1
  rcases hcases.1 with h0 | h0
  · rw [h0] at h1
    exact absurd h1 (by decide)
  · exact h0.2

/-- Instance of C6: after the writer has entered its first iteration, taken the
mutex, mapped the file and set `active_map`, the mapping exists. -/
theorem active_map_implies_mapped_witness :
    run 1 1 (WState.start [97, 0])
        [Action.writer true, Action.writer true, Action.writer true, Action.writer true] =
      some ⟨Pc.unlock1, 0, 0, ⟨[97, 0], true, 1⟩, some Holder.writer⟩ ∧
    ((1 : Int) = 0 ∨ ((1 : Int) = 1 ∧ true = true)) :=
  ⟨by decide,
    (active_map_implies_mapped 1 1 [97, 0]
      [Action.writer true, Action.writer true, Action.writer true, Action.writer true]
      ⟨Pc.unlock1, 0, 0, ⟨[97, 0], true, 1⟩, some Holder.writer⟩ (by decide)).1⟩

/-! ### The driver -/

theorem driver_loop_cons (file_size : Int) (it : Joined) (rest : List Joined) (te : Int) :
    driver_loop file_size (it :: rest) te =
      [DEvent.mkfile (mkfile (long_to_int file_size))] ++ join_reports it ++
        (switch_test_end (latch it.signals te)).1 ++
        (if (switch_test_end (latch it.signals te)).2 then
          driver_loop file_size rest (latch it.signals te) else []) := rfl

theorem driver_loop_head (file_size : Int) (env : List Joined) (te : Int) :
    ∃ tail, driver_loop file_size env te =
      DEvent.mkfile (mkfile (long_to_int file_size)) :: tail := by
  cases env with
  | nil => exact ⟨[], rfl⟩
  | cons it rest => exact ⟨_, rfl⟩

theorem switch_zero : switch_test_end 0 = ([], true) := rfl

theorem switch_alarm :
    switch_test_end SIGALRM = ([DEvent.res Res.TPASS, DEvent.ret], false) := rfl

theorem switch_other (v : Int) (h0 : v ≠ 0) (h1 : v ≠ SIGALRM) :
    switch_test_end v = ([DEvent.res Res.TFAIL, DEvent.ret], false) := by
  simp [switch_test_end, h0, h1]

/-- C4 (test_mmap1 after the join): what follows the reports of the join depends
on `test_end` alone.  With `test_end = 0` nothing is reported and the next outer
iteration begins by making a new backing file; with `test_end = SIGALRM` the
driver reports PASS and returns; with any other value it reports FAIL and
returns.  Whatever `test_end` held before the call, test_mmap1 starts from
`test_end = 0`. -/
theorem driver_next_step (file_size : Int) (it : Joined) (rest : List Joined)
    (te before : Int) (env : List Joined) :
    switch_test_end 0 = ([], true) ∧
    switch_test_end SIGALRM = ([DEvent.res Res.TPASS, DEvent.ret], false) ∧
    (∀ v, v ≠ 0 → v ≠ SIGALRM →
      switch_test_end v = ([DEvent.res Res.TFAIL, DEvent.ret], false)) ∧
    (latch it.signals te = 0 →
      driver_loop file_size (it :: rest) te =
        [DEvent.mkfile (mkfile (long_to_int file_size))] ++ join_reports it ++
          driver_loop file_size rest 0 ∧
      ∃ tail, driver_loop file_size rest 0 =
        DEvent.mkfile (mkfile (long_to_int file_size)) :: tail) ∧
    (latch it.signals te = SIGALRM →
      driver_loop file_size (it :: rest) te =
        [DEvent.mkfile (mkfile (long_to_int file_size))] ++ join_reports it ++
          [DEvent.res Res.TPASS, DEvent.ret]) ∧
    (latch it.signals te ≠ 0 → latch it.signals te ≠ SIGALRM →
      driver_loop file_size (it :: rest) te =
        [DEvent.mkfile (mkfile (long_to_int file_size))] ++ join_reports it ++
          [DEvent.res Res.TFAIL, DEvent.ret]) ∧
    test_mmap1 file_size before env = driver_loop file_size env 0 ∧
    test_mmap1 file_size before env = test_mmap1 file_size 0 env := by
  refine ⟨rfl, rfl, switch_other, ?_, ?_, ?_, rfl, rfl⟩
  · intro h
    rw [driver_loop_cons, h, switch_zero]
    exact ⟨by simp, driver_loop_head file_size rest 0⟩
  · intro h
    rw [driver_loop_cons, h, switch_alarm]
    simp
  · intro h0 h1
    rw [driver_loop_cons, switch_other _ h0 h1]
    simp

/-- C5 (a non-null exit status, as the code behaves): when the writer or the
reader exits with a non-null status the driver reports FAIL for it after the
join, and then goes on as `test_end` tells: with `test_end = 0` it begins
another outer iteration, with `test_end = SIGALRM` it reports PASS as well and
returns, with another value it reports FAIL once more and returns. -/
theorem join_failure_reported (file_size : Int) (it : Joined) (rest : List Joined)
    (te : Int) (h : it.status0 ≠ 0 ∨ it.status1 ≠ 0) :
    DEvent.res Res.TFAIL ∈ join_reports it ∧
    (latch it.signals te = 0 →
      driver_loop file_size (it :: rest) te =
        [DEvent.mkfile (mkfile (long_to_int file_size))] ++ join_reports it ++
          driver_loop file_size rest 0) ∧
    (latch it.signals te = SIGALRM →
      driver_loop file_size (it :: rest) te =
        [DEvent.mkfile (mkfile (long_to_int file_size))] ++ join_reports it ++
          [DEvent.res Res.TPASS, DEvent.ret]) ∧
    (latch it.signals te ≠ 0 → latch it.signals te ≠ SIGALRM →
      driver_loop file_size (it :: rest) te =
        [DEvent.mkfile (mkfile (long_to_int file_size))] ++ join_reports it ++
          [DEvent.res Res.TFAIL, DEvent.ret]) := by
  refine ⟨?_, ?_, ?_, ?_⟩
  · unfold join_reports
    rcases h with h | h
    · simp [h]
    · simp [h]
  · intro h0
    rw [driver_loop_cons, h0, switch_zero]
    simp
  · intro h0
    rw [driver_loop_cons, h0, switch_alarm]
    simp
  · intro h0 h1
    rw [driver_loop_cons, switch_other _ h0 h1]
    simp

/-- Instance of C5: the reader exits with -1 and no signal has come. -/
theorem join_failure_reported_witness :
    ((0 : Int) ≠ 0 ∨ (-1 : Int) ≠ 0) ∧
    DEvent.res Res.TFAIL ∈ join_reports ⟨0, -1, []⟩ :=
  ⟨by decide, (join_failure_reported 1 ⟨0, -1, []⟩ [] 0 (by decide)).1⟩

/-- C5 (as stated) fails.  File size 1; in the first outer iteration the reader
exits with the sentinel -1 and `test_end` stays 0: the driver reports FAIL, then
makes a second backing file and runs a second iteration, in which SIGALRM comes,
and it reports PASS.  And when SIGALRM comes in the iteration whose reader exits
with the sentinel, FAIL and PASS are reported one after the other. -/
theorem join_failure_not_terminal :
    test_mmap1 1 0 [⟨0, -1, []⟩, ⟨0, 0, [(14, 1)]⟩] =
      [DEvent.mkfile [97, 0], DEvent.res Res.TFAIL,
        DEvent.mkfile [97, 0], DEvent.res Res.TPASS, DEvent.ret] ∧
    test_mmap1 1 0 [⟨0, -1, [(14, 1)]⟩] =
      [DEvent.mkfile [97, 0], DEvent.res Res.TFAIL, DEvent.res Res.TPASS, DEvent.ret] := by
  have hf : mkfile (long_to_int 1) = [97, 0] := by
    have h1 : long_to_int 1 = ((1 : Nat) : Int) := by decide
    rw [h1, mkfile_nat]
    rfl
  constructor
  · simp only [test_mmap1, driver_loop_cons, hf]
    decide
  · simp only [test_mmap1, driver_loop_cons, hf]
    decide

end Mmap1

namespace Msync04

/-- C10 (get_dirty_bit): with `e` the pagemap entry at byte offset `(addr / p) * 8`
(computed in `uint64_t`), `pfn = e mod 2 ^ 55` and `f` the kpageflags entry at
byte offset `pfn * 8`: when `pfn = 0` the result is 0 and only pagemap was read;
otherwise the result is `f AND 2 ^ 4` and kpageflags was read at `pfn * 8`.  The
result is 0 or 16, it is non-zero exactly when `pfn` is non-zero and bit 4 of `f`
is set, and a pagemap entry that differs from `e` only in bits 55 to 63 gives the
same result. -/
theorem get_dirty_bit_spec (p addr : Nat) (pagemap kpageflags : Nat → Nat)
    (off e pfn f : Nat)
    (hp : 0 < p) (hp63 : p < 2 ^ 63) (ha : addr < 2 ^ 64)
    (hoff : off = (addr / p * 8) % 2 ^ 64) (he : e = pagemap off % 2 ^ 64)
    (hpfn : pfn = e % 2 ^ 55) (hf : f = kpageflags (pfn * 8) % 2 ^ 64) :
    (8 ≤ p → off = addr / p * 8) ∧
    (pfn = 0 → (get_dirty_bit (p : Int) pagemap kpageflags addr).value = 0 ∧
      (get_dirty_bit (p : Int) pagemap kpageflags addr).reads = [(ProcFile.pagemap, off)]) ∧
    (pfn ≠ 0 → (get_dirty_bit (p : Int) pagemap kpageflags addr).value = f &&& 2 ^ 4 ∧
      (get_dirty_bit (p : Int) pagemap kpageflags addr).reads =
        [(ProcFile.pagemap, off), (ProcFile.kpageflags, pfn * 8)]) ∧
    ((get_dirty_bit (p : Int) pagemap kpageflags addr).value = 0 ∨
      (get_dirty_bit (p : Int) pagemap kpageflags addr).value = 16) ∧
    ((get_dirty_bit (p : Int) pagemap kpageflags addr).value ≠ 0 ↔
      pfn ≠ 0 ∧ f.testBit 4 = true) ∧
    (∀ pagemap2 : Nat → Nat, pagemap2 off % 2 ^ 55 = e % 2 ^ 55 →
      (get_dirty_bit (p : Int) pagemap2 kpageflags addr).value =
        (get_dirty_bit (p : Int) pagemap kpageflags addr).value) := by
  subst hf hpfn he hoff
  exact get_dirty_bit_cases p addr pagemap kpageflags hp hp63 ha

/-- Instance of C10: page size 4096, address 8192, a pagemap entry with frame
number 5 and the present bit 63 set, a kpageflags entry with the dirty bit set. -/
theorem get_dirty_bit_spec_witness :
    ((0 : Nat) < 4096 ∧ 4096 < 2 ^ 63 ∧ 8192 < 2 ^ 64) ∧
    ((get_dirty_bit ((4096 : Nat) : Int) (fun _ => 2 ^ 63 + 5) (fun _ => 16) 8192).value = 0 ∨
      (get_dirty_bit ((4096 : Nat) : Int) (fun _ => 2 ^ 63 + 5) (fun _ => 16) 8192).value = 16) :=
  ⟨⟨by decide, by decide, by decide⟩,
    (get_dirty_bit_spec 4096 8192 (fun _ => 2 ^ 63 + 5) (fun _ => 16)
      ((8192 / 4096 * 8) % 2 ^ 64) ((2 ^ 63 + 5) % 2 ^ 64) ((2 ^ 63 + 5) % 2 ^ 64 % 2 ^ 55)
      (16 % 2 ^ 64)
      (by decide) (by decide) (by decide) rfl rfl rfl rfl).2.2.2.1⟩

end Msync04

namespace Mmap1

/-! ### The reader: what the trace looks like -/

theorem read_pass_shape (mem : Nat → Nat → Access) (S : Nat) :
    ∀ n j k, S - j = n →
      ((read_pass mem S j k).1 = PassEnd.completed →
        (read_pass mem S j k).2 =
          (List.range' j (S - j)).map (fun t => (t, Access.Ok FILL))) ∧
      ((read_pass mem S j k).1 = PassEnd.faulted →
        ∃ q, j ≤ q ∧ q < S ∧ (read_pass mem S j k).2 =
          (List.range' j (q - j)).map (fun t => (t, Access.Ok FILL)) ++
            [(q, Access.Faulted)]) ∧
      ((read_pass mem S j k).1 = PassEnd.mismatch →
        ∃ q b, j ≤ q ∧ q < S ∧ b ≠ FILL ∧ (read_pass mem S j k).2 =
          (List.range' j (q - j)).map (fun t => (t, Access.Ok FILL)) ++
            [(q, Access.Ok b)]) := by
  intro n
  induction n with
  | zero =>
    intro j k h
    rw [read_pass_ge mem S j k (by omega), h]
    refine ⟨fun _ => rfl, fun h1 => ?_, fun h1 => ?_⟩
    · simp at h1
    · simp at h1
  | succ n ih =>
    intro j k h
    have hj : j < S := by omega
    cases hm : mem k j with
    | Faulted =>
      rw [read_pass_faulted mem S j k hj hm]
      refine ⟨fun h1 => by simp at h1, fun _ => ⟨j, by omega, hj, by simp⟩,
        fun h1 => by simp at h1⟩
    | Ok b =>
      by_cases hb : b = FILL
      · subst hb
        rw [read_pass_good mem S j k hj hm]
        obtain ⟨h1, h2, h3⟩ := ih (j + 1) (k + 1) (by omega)
        refine ⟨?_, ?_, ?_⟩
        · intro hc
          have hs : S - j = (S - (j + 1)) + 1 := by omega
          simp only [h1 hc]
          rw [hs, List.range'_succ]
          rfl
        · intro hc
          obtain ⟨q, hq1, hq2, hq3⟩ := h2 hc
          refine ⟨q, by omega, hq2, ?_⟩
          have hs : q - j = (q - (j + 1)) + 1 := by omega
          simp only [hq3]
          rw [hs, List.range'_succ]
          rfl
        · intro hc
          obtain ⟨q, b, hq1, hq2, hb, hq3⟩ := h3 hc
          refine ⟨q, b, by omega, hq2, hb, ?_⟩
          have hs : q - j = (q - (j + 1)) + 1 := by omega
          simp only [hq3]
          rw [hs, List.range'_succ]
          rfl
      · rw [read_pass_bad mem S j k b hj hm hb]
        refine ⟨fun h1 => by simp at h1, fun h1 => by simp at h1,
          fun _ => ⟨j, b, by omega, hj, hb, by simp⟩⟩

theorem read_pass_clean_shape (mem : Nat → Nat → Access) (S k : Nat)
    (h : (read_pass mem S 0 k).1 ≠ PassEnd.mismatch) :
    clean_pass S (read_pass mem S 0 k).2 := by
  obtain ⟨h1, h2, _⟩ := read_pass_shape mem S S 0 k (by omega)
  cases he : (read_pass mem S 0 k).1 with
  | mismatch => exact absurd he h
  | completed =>
    left
    rw [h1 he, List.range_eq_range']
    rfl
  | faulted =>
    right
    obtain ⟨q, _, hq, hq3⟩ := h2 he
    exact ⟨q, hq, by rw [hq3, List.range_eq_range']; rfl⟩

theorem read_pass_bad_shape (mem : Nat → Nat → Access) (S k : Nat)
    (h : (read_pass mem S 0 k).1 = PassEnd.mismatch) :
    bad_pass S (read_pass mem S 0 k).2 := by
  obtain ⟨_, _, h3⟩ := read_pass_shape mem S S 0 k (by omega)
  obtain ⟨q, b, _, hq, hb, hq3⟩ := h3 h
  exact ⟨q, b, hq, hb, by rw [hq3, List.range_eq_range']; rfl⟩

theorem passes_in_succ (pf : Nat → Bool) (i n : Nat) :
    passes_in pf i (n + 1) = (if pf i then 0 else 1) + passes_in pf (i + 1) n := by
  unfold passes_in
  rw [List.range'_succ, List.filter_cons]
  cases pf i
  · simp
    omega
  · simp

theorem read_loop_shape (mem : Nat → Nat → Access) (pf : Nat → Bool) (S N : Nat) :
    ∀ n i k, N - i = n → i ≤ N →
      ((read_loop mem pf S N i k).status ≠ -1 →
        ∃ passes : List (List (Nat × Access)),
          (read_loop mem pf S N i k).trace = passes.flatten ∧
          passes.length = passes_in pf i (N - i) ∧
          ∀ p ∈ passes, clean_pass S p) ∧
      ((read_loop mem pf S N i k).status = -1 →
        ∃ (passes : List (List (Nat × Access))) (last : List (Nat × Access)),
          (read_loop mem pf S N i k).trace = passes.flatten ++ last ∧
          (∀ p ∈ passes, clean_pass S p) ∧ bad_pass S last ∧
          i < (read_loop mem pf S N i k).iterations ∧
          pf ((read_loop mem pf S N i k).iterations - 1) = false ∧
          passes.length =
            passes_in pf i ((read_loop mem pf S N i k).iterations - 1 - i)) := by
  intro n
  induction n with
  | zero =>
    intro i k h hi
    rw [read_loop_ge mem pf S N i k (by omega)]
    refine ⟨fun _ => ⟨[], rfl, ?_, by simp⟩, fun h1 => by simp at h1⟩
    rw [h]
    rfl
  | succ n ih =>
    intro i k h hi
    have hlt : i < N := by omega
    have hN : N - i = (N - (i + 1)) + 1 := by omega
    cases hp : pf i with
    | true =>
      rw [read_loop_print mem pf S N i k hlt hp]
      obtain ⟨h1, h2⟩ := ih (i + 1) k (by omega) (by omega)
      refine ⟨?_, ?_⟩
      · intro hs
        obtain ⟨passes, g1, g2, g3⟩ := h1 hs
        refine ⟨passes, g1, ?_, g3⟩
        rw [g2, hN, passes_in_succ, hp]
        simp
      · intro hs
        obtain ⟨passes, last, g1, g2, g3, g4, g5, g6⟩ := h2 hs
        refine ⟨passes, last, g1, g2, g3, by omega, g5, ?_⟩
        have hI : (read_loop mem pf S N (i + 1) k).iterations - 1 - i =
            ((read_loop mem pf S N (i + 1) k).iterations - 1 - (i + 1)) + 1 := by omega
        rw [g6, hI, passes_in_succ, hp]
        simp
    | false =>
      by_cases hm : (read_pass mem S 0 k).1 = PassEnd.mismatch
      · rw [read_loop_mismatch mem pf S N i k hlt hp hm]
        refine ⟨fun hs => absurd rfl hs, fun _ => ?_⟩
        refine ⟨[], (read_pass mem S 0 k).2, by simp, by simp,
          read_pass_bad_shape mem S k hm, by simp, by simpa using hp, ?_⟩
        simp [passes_in]
      · rw [read_loop_next mem pf S N i k hlt hp hm]
        obtain ⟨h1, h2⟩ :=
          ih (i + 1) (k + (read_pass mem S 0 k).2.length) (by omega) (by omega)
        have hc := read_pass_clean_shape mem S k hm
        refine ⟨?_, ?_⟩
        · intro hs
          obtain ⟨passes, g1, g2, g3⟩ := h1 hs
          refine ⟨(read_pass mem S 0 k).2 :: passes, ?_, ?_, ?_⟩
          · simp only [List.flatten_cons, g1]
          · rw [List.length_cons, g2, hN, passes_in_succ, hp]
            simp
            omega
          · intro p hp2
            rcases List.mem_cons.mp hp2 with hp2 | hp2
            · rw [hp2]
              exact hc
            · exact g3 p hp2
        · intro hs
          obtain ⟨passes, last, g1, g2, g3, g4, g5, g6⟩ := h2 hs
          refine ⟨(read_pass mem S 0 k).2 :: passes, last, ?_, ?_, g3, ?_, g5, ?_⟩
          · simp only [List.flatten_cons, g1, List.append_assoc]
          · intro p hp2
            rcases List.mem_cons.mp hp2 with hp2 | hp2
            · rw [hp2]
              exact hc
            · exact g2 p hp2
          · exact Nat.lt_of_succ_lt g4
          · have g4b : i + 1 <
                (read_loop mem pf S N (i + 1) (k + (read_pass mem S 0 k).2.length)).iterations :=
              g4
            have hI : (read_loop mem pf S N (i + 1)
                  (k + (read_pass mem S 0 k).2.length)).iterations - 1 - i =
                ((read_loop mem pf S N (i + 1)
                  (k + (read_pass mem S 0 k).2.length)).iterations - 1 - (i + 1)) + 1 := by
              omega
            simp only [List.length_cons]
            rw [g6, hI, passes_in_succ, hp]
            simp
            omega

theorem read_pass_truth (mem : Nat → Nat → Access) (S j k : Nat) :
    ∀ t x a, (read_pass mem S j k).2[t]? = some (x, a) →
      x < S ∧ a = mem (k + t) x := by
  intro t x a hx
  have htr := read_pass_trace mem S (S - j) j k rfl
  have hlen := (read_pass_cases mem S (S - j) j k rfl).2.2
  have ht : t < (read_pass mem S j k).2.length := by
    by_contra hge
    rw [List.getElem?_eq_none (by omega)] at hx
    simp at hx
  rw [htr, List.getElem?_map, List.getElem?_range ht] at hx
  simp only [Option.map_some', Option.some.injEq, Prod.mk.injEq] at hx
  obtain ⟨hx1, hx2⟩ := hx
  subst hx1
  exact ⟨by omega, hx2.symm⟩

theorem read_loop_truth (mem : Nat → Nat → Access) (pf : Nat → Bool) (S N : Nat) :
    ∀ n i k, N - i = n →
      ∀ t x a, (read_loop mem pf S N i k).trace[t]? = some (x, a) →
        x < S ∧ a = mem (k + t) x := by
  intro n
  induction n with
  | zero =>
    intro i k h t x a hx
    rw [read_loop_ge mem pf S N i k (by omega)] at hx
    simp at hx
  | succ n ih =>
    intro i k h t x a hx
    have hlt : i < N := by omega
    cases hp : pf i with
    | true =>
      rw [read_loop_print mem pf S N i k hlt hp] at hx
      exact ih (i + 1) k (by omega) t x a hx
    | false =>
      by_cases hm : (read_pass mem S 0 k).1 = PassEnd.mismatch
      · rw [read_loop_mismatch mem pf S N i k hlt hp hm] at hx
        exact read_pass_truth mem S 0 k t x a hx
      · rw [read_loop_next mem pf S N i k hlt hp hm] at hx
        by_cases ht : t < (read_pass mem S 0 k).2.length
        · rw [List.getElem?_append_left ht] at hx
          exact read_pass_truth mem S 0 k t x a hx
        · rw [List.getElem?_append_right (by omega)] at hx
          have := ih (i + 1) _ (by omega) _ x a hx
          have he : k + (read_pass mem S 0 k).2.length + (t - (read_pass mem S 0 k).2.length) =
              k + t := by omega
          rw [he] at this
          exact this

theorem read_pass_head (mem : Nat → Nat → Access) (S j k : Nat) (hj : j < S) :
    (read_pass mem S j k).2[0]? = some (j, mem k j) := by
  cases hm : mem k j with
  | Faulted => rw [read_pass_faulted mem S j k hj hm]; simp
  | Ok b =>
    by_cases hb : b = FILL
    · subst hb
      rw [read_pass_good mem S j k hj hm]
      simp
    · rw [read_pass_bad mem S j k b hj hm hb]
      simp

theorem read_loop_first (mem : Nat → Nat → Access) (pf : Nat → Bool) (S N : Nat)
    (hN : 0 < N) (hS : 0 < S) (hp : pf 0 = false) :
    (read_mem mem pf S N).trace[0]? = some (0, mem 0 0) := by
  unfold read_mem
  have hh := read_pass_head mem S 0 0 hS
  have hpos : 0 < (read_pass mem S 0 0).2.length := by
    by_contra hge
    rw [List.getElem?_eq_none (by omega)] at hh
    simp at hh
  by_cases hm : (read_pass mem S 0 0).1 = PassEnd.mismatch
  · rw [read_loop_mismatch mem pf S N 0 0 hN hp hm]
    exact hh
  · rw [read_loop_next mem pf S N 0 0 hN hp hm]
    simp only
    rw [List.getElem?_append_left hpos]
    exact hh

/-- C3 (read_mem): the exit status is the sentinel -1 or null; it is the sentinel
exactly when one of the accesses made showed a byte other than the fill byte,
and then that access is the last one made and the first of its kind.  A faulted
access ends the pass it is in without a status, and the loop goes on with the
next iteration.  Without a mismatch the status is null after exactly `N`
iterations; never more than `N` iterations are begun, nor more than `N * S`
accesses made.  The accesses listed are those the outcomes `mem` answer: entry
`t` of the trace is the outcome of access number `t` at its offset, below `S`;
with `N` and `S` positive the first access is made at offset 0.  With the null
status the trace is one pass for each iteration that came to its pass, each the
fill byte at all `S` offsets or the fill byte up to a fault; with the sentinel
it is such passes followed by one that ends at the mismatch. -/
theorem read_mem_exit (mem : Nat → Nat → Access) (pf : Nat → Bool) (S N : Nat) :
    ((read_mem mem pf S N).status = -1 ∨ (read_mem mem pf S N).status = 0) ∧
    ((read_mem mem pf S N).status = -1 ↔ ∃ x ∈ (read_mem mem pf S N).trace, is_mismatch x) ∧
    ((read_mem mem pf S N).status = -1 →
      ∃ pre x, (read_mem mem pf S N).trace = pre ++ [x] ∧ is_mismatch x ∧
        ∀ y ∈ pre, ¬ is_mismatch y) ∧
    ((read_mem mem pf S N).status = 0 → (read_mem mem pf S N).iterations = N) ∧
    (read_mem mem pf S N).iterations ≤ N ∧
    (read_mem mem pf S N).trace.length ≤ N * S ∧
    (∀ j k, j < S → mem k j = Access.Faulted →
      read_pass mem S j k = (PassEnd.faulted, [(j, Access.Faulted)])) ∧
    (∀ i k, i < N → pf i = false → (read_pass mem S 0 k).1 = PassEnd.faulted →
      (read_loop mem pf S N i k).status =
        (read_loop mem pf S N (i + 1) (k + (read_pass mem S 0 k).2.length)).status ∧
      (read_loop mem pf S N i k).trace = (read_pass mem S 0 k).2 ++
        (read_loop mem pf S N (i + 1) (k + (read_pass mem S 0 k).2.length)).trace) ∧
    (∀ t x a, (read_mem mem pf S N).trace[t]? = some (x, a) → x < S ∧ a = mem t x) ∧
    (0 < N → 0 < S → pf 0 = false →
      (read_mem mem pf S N).trace[0]? = some (0, mem 0 0)) ∧
    ((read_mem mem pf S N).status = 0 →
      ∃ passes : List (List (Nat × Access)),
        (read_mem mem pf S N).trace = passes.flatten ∧
        passes.length = passes_in pf 0 N ∧
        ∀ p ∈ passes, clean_pass S p) ∧
    ((read_mem mem pf S N).status = -1 →
      ∃ (passes : List (List (Nat × Access))) (last : List (Nat × Access)),
        (read_mem mem pf S N).trace = passes.flatten ++ last ∧
        (∀ p ∈ passes, clean_pass S p) ∧ bad_pass S last ∧
        0 < (read_mem mem pf S N).iterations ∧
        pf ((read_mem mem pf S N).iterations - 1) = false ∧
        passes.length = passes_in pf 0 ((read_mem mem pf S N).iterations - 1)) := by
  obtain ⟨h1, h2, h3, h4⟩ := read_loop_cases mem pf S N N 0 0 (by omega) (by omega)
  have hdec : (read_mem mem pf S N).status = -1 ∨ (read_mem mem pf S N).status = 0 := by
    by_cases hs : (read_mem mem pf S N).status = -1
    · exact Or.inl hs
    · exact Or.inr (h2 hs).1
  obtain ⟨s1, s2⟩ := read_loop_shape mem pf S N N 0 0 (by omega) (by omega)
  refine ⟨hdec, ⟨?_, ?_⟩, h1, ?_, h3, by simpa using h4, ?_, ?_, ?_, ?_, ?_, ?_⟩
  · intro hs
    obtain ⟨pre, x, hx, hbad, _⟩ := h1 hs
    exact ⟨x, by rw [show (read_mem mem pf S N).trace = pre ++ [x] from hx]; simp, hbad⟩
  · rintro ⟨x, hx, hbad⟩
    by_contra hs
    exact (h2 hs).2.1 x hx hbad
  · intro hs
    have hs0 : (read_loop mem pf S N 0 0).status = 0 := hs
    exact (h2 (by rw [hs0]; decide)).2.2
  · intro j k hj hm
    exact read_pass_faulted mem S j k hj hm
  · intro i k hi hp hf
    rw [read_loop_next mem pf S N i k hi hp (by rw [hf]; decide)]
    exact ⟨rfl, rfl⟩
  · intro t x a hx
    have := read_loop_truth mem pf S N N 0 0 (by omega) t x a hx
    simpa using this
  · intro hN hS hp
    exact read_loop_first mem pf S N hN hS hp
  · intro hs
    have hs0 : (read_loop mem pf S N 0 0).status = 0 := hs
    obtain ⟨passes, g1, g2, g3⟩ := s1 (by rw [hs0]; decide)
    exact ⟨passes, g1, by simpa using g2, g3⟩
  · intro hs
    obtain ⟨passes, last, g1, g2, g3, g4, g5, g6⟩ := s2 hs
    exact ⟨passes, last, g1, g2, g3, g4, g5, by simpa using g6⟩

/-! ### The fill loop: what is left in the file -/

theorem access_of_fill (pagesize S : Nat) (m : Mapping)
    (h : ∀ j, j < S → m.file[j]? = some FILL)
    (ha : m.mapped = false → m.active_map = 0) (j : Nat) (hj : j < S) :
    access_of pagesize m j =
      some (if m.mapped then Access.Ok FILL else Access.Faulted) := by
  unfold access_of
  cases hm : m.mapped with
  | true => simp [h j hj]
  | false => simp [sig_handler, ha hm]

theorem file_in_range (S : Nat) (hS : (S : Int) < 2 ^ 31) :
    ∀ j, j < S → (mkfile (long_to_int (S : Int)))[j]? = some FILL := by
  rw [long_to_int_small (S : Int) (by omega) hS]
  exact start_holds_fill S

theorem read_pass_full (mem : Nat → Nat → Access) (S : Nat) :
    ∀ n j k, S - j = n → (∀ t, t < S - j → mem (k + t) (j + t) = Access.Ok FILL) →
      read_pass mem S j k =
        (PassEnd.completed, (List.range' j (S - j)).map (fun t => (t, Access.Ok FILL))) := by
  intro n
  induction n with
  | zero =>
    intro j k hn _
    rw [read_pass_ge mem S j k (by omega), hn]
    rfl
  | succ n ih =>
    intro j k hn h
    have hj : j < S := by omega
    have h0 := h 0 (by omega)
    simp only [Nat.add_zero] at h0
    rw [read_pass_good mem S j k hj h0, ih (j + 1) (k + 1) (by omega)]
    · have : S - j = (S - (j + 1)) + 1 := by omega
      rw [this, List.range'_succ]
      rfl
    · intro t ht
      have := h (t + 1) (by omega)
      rw [show k + 1 + t = k + (t + 1) by omega, show j + 1 + t = j + (t + 1) by omega]
      exact this

/-- For a file size that fits an `int`: from the file that test_mmap1 makes, any
sequence of the writer steps map, write below `S`, unmap leaves the fill byte at
every offset below `S`; a reader whose accesses are made in such states sees the
fill byte or a fault, and read_mem exits with the null status. -/
theorem mapping_holds_fill_in_range (S : Nat) (hS : (S : Int) < 2 ^ 31)
    (ops : List WriterOp) :
    (∀ j, j < S →
      (writer_ops S (Mapping.start (mkfile (long_to_int (S : Int)))) ops).file[j]? =
        some FILL) ∧
    (∀ pagesize j, j < S →
      access_of pagesize (writer_ops S (Mapping.start (mkfile (long_to_int (S : Int)))) ops) j =
        some (if (writer_ops S (Mapping.start (mkfile (long_to_int (S : Int)))) ops).mapped
          then Access.Ok FILL else Access.Faulted)) ∧
    (∀ (pagesize : Nat) (sched : Nat → List WriterOp) (mem : Nat → Nat → Access)
        (pf : Nat → Bool) (N : Nat),
      reads_in pagesize
        (fun k => writer_ops S (Mapping.start (mkfile (long_to_int (S : Int)))) (sched k)) mem →
      (read_mem mem pf S N).status = 0 ∧
      ∀ x ∈ (read_mem mem pf S N).trace, ¬ is_mismatch x) := by
  have hinv : ∀ l : List WriterOp,
      (∀ j, j < S →
        (writer_ops S (Mapping.start (mkfile (long_to_int (S : Int)))) l).file[j]? =
          some FILL) ∧
      ((writer_ops S (Mapping.start (mkfile (long_to_int (S : Int)))) l).active_map ≠ 0 ↔
        (writer_ops S (Mapping.start (mkfile (long_to_int (S : Int)))) l).mapped = true) :=
    fun l => writer_ops_inv S l _ (file_in_range S hS) (by simp [Mapping.start])
  have hacc : ∀ (pagesize : Nat) (l : List WriterOp) (j : Nat), j < S →
      access_of pagesize (writer_ops S (Mapping.start (mkfile (long_to_int (S : Int)))) l) j =
        some (if (writer_ops S (Mapping.start (mkfile (long_to_int (S : Int)))) l).mapped
          then Access.Ok FILL else Access.Faulted) := by
    intro pagesize l j hj
    refine access_of_fill pagesize S _ (hinv l).1 ?_ j hj
    intro hm
    by_contra hne
    have := (hinv l).2.mp hne
    rw [hm] at this
    exact absurd this (by decide)
  refine ⟨(hinv ops).1, fun pagesize j hj => hacc pagesize ops j hj, ?_⟩
  intro pagesize sched mem pf N hmem
  have h := read_mem_clean mem pf S N (by
    intro t j b hj hb
    have h1 := hmem t j _ (hacc pagesize (sched t) j hj)
    rw [hb] at h1
    split at h1
    · simp only [Access.Ok.injEq] at h1
      exact h1
    · simp at h1)
  exact ⟨h.1, h.2.2⟩

/-- C1 (mapping invariant, failing input): with `file_size = 2147483648`, which
mmap1_setup accepts, the file that test_mmap1 makes is the single null byte.
After the writer has mapped it, offset 0 of the mapping holds the null byte and
not the fill byte; a reader that makes its first access in this state, with the
mapping active, is answered the null byte, and read_mem reports the mismatch:
it exits with the sentinel after this one access. -/
theorem mapping_fill_lost_by_narrowing :
    writer_ops 2147483648 (Mapping.start (mkfile (long_to_int 2147483648)))
      [WriterOp.map] = ⟨[0], true, 1⟩ ∧
    (writer_ops 2147483648 (Mapping.start (mkfile (long_to_int 2147483648)))
      [WriterOp.map]).file[0]? = some 0 ∧
    (writer_ops 2147483648 (Mapping.start (mkfile (long_to_int 2147483648)))
      [WriterOp.map]).file[0]? ≠ some FILL ∧
    (∀ (pagesize : Nat) (mem : Nat → Nat → Access),
      reads_in pagesize
        (fun _ => writer_ops 2147483648 (Mapping.start (mkfile (long_to_int 2147483648)))
          [WriterOp.map]) mem →
      mem 0 0 = Access.Ok 0 ∧
      read_mem mem (fun _ => false) 2147483648 1 = ⟨-1, [(0, Access.Ok 0)], 1⟩) := by
  have h : long_to_int 2147483648 = -2147483648 := by decide
  have hf : mkfile (long_to_int 2147483648) = [0] := by
    rw [h, mkfile_eq]
    simp
  have hw : writer_ops 2147483648 (Mapping.start (mkfile (long_to_int 2147483648)))
      [WriterOp.map] = ⟨[0], true, 1⟩ := by
    rw [hf]
    rfl
  rw [hw]
  refine ⟨rfl, rfl, by decide, ?_⟩
  intro pagesize mem hmem
  have h0 : mem 0 0 = Access.Ok 0 := hmem 0 0 (Access.Ok 0) (by simp [access_of])
  have hp := read_pass_bad mem 2147483648 0 0 0 (by decide) h0 (by decide)
  refine ⟨h0, ?_⟩
  unfold read_mem
  rw [read_loop_mismatch mem _ _ _ 0 0 (by decide) rfl (by rw [hp]), hp]

/-- C7 (mkfile, failing input): with `file_size = 2147483648`, a value that
mmap1_setup accepts, the `int` parameter of mkfile receives `-2147483648`, the
loop writes nothing and the file is the single null byte: it holds no fill byte
and is shorter than the 2147483648 bytes that the writer maps.  A reader that
looks at offset 0 of the mapping before the writer has stored there sees the
null byte, and read_mem exits with the sentinel. -/
theorem mkfile_file_size_narrowed :
    long_to_int 2147483648 = -2147483648 ∧
    mkfile (long_to_int 2147483648) = [0] ∧
    (mkfile (long_to_int 2147483648)).length < 2147483648 ∧
    (∀ pagesize : Nat,
      access_of pagesize
        (set_active (do_mmap (Mapping.start (mkfile (long_to_int 2147483648))))) 0 =
      some (Access.Ok 0)) ∧
    (∀ (pagesize : Nat) (mem : Nat → Nat → Access),
      reads_in pagesize
        (fun _ => set_active (do_mmap (Mapping.start (mkfile (long_to_int 2147483648))))) mem →
      (read_mem mem (fun _ => false) 2147483648 1).status = -1) := by
  have h : long_to_int 2147483648 = -2147483648 := by decide
  have hf : mkfile (long_to_int 2147483648) = [0] := by
    rw [h, mkfile_eq]
    simp
  have hr : ∀ pagesize : Nat,
      access_of pagesize
        (set_active (do_mmap (Mapping.start (mkfile (long_to_int 2147483648))))) 0 =
      some (Access.Ok 0) := by
    intro pagesize
    rw [hf]
    simp [access_of, set_active, do_mmap, Mapping.start]
  refine ⟨h, hf, by rw [hf]; decide, hr, ?_⟩
  intro pagesize mem hmem
  have h0 : mem 0 0 = Access.Ok 0 := hmem 0 0 (Access.Ok 0) (hr pagesize)
  have hp := read_pass_bad mem 2147483648 0 0 0 (by decide) h0 (by decide)
  unfold read_mem
  rw [read_loop_mismatch mem _ _ _ 0 0 (by decide) rfl (by rw [hp])]

/-! ### A writer that leaves out the last byte -/

theorem step_holds_fill (N B T : Nat) (s t : WState) (a : Action)
    (h : ∀ j, j < T → s.m.file[j]? = some FILL) (hst : step N B s a = some t) :
    ∀ j, j < T → t.m.file[j]? = some FILL := by
  obtain ⟨pc, i, j, m, lock⟩ := s
  cases a with
  | writer r =>
    cases pc <;> simp only [step, writer_step] at hst
    all_goals (try split at hst)
    all_goals (try simp only [Option.some.injEq, reduceCtorEq] at hst)
    all_goals (try subst hst)
    all_goals (try exact h)
    exact store_holds_fill T m j h
  | reader_lock =>
    simp only [step] at hst
    split at hst
    · simp only [Option.some.injEq] at hst
      subst hst
      exact h
    · simp at hst
  | reader_unlock =>
    simp only [step] at hst
    split at hst
    · simp only [Option.some.injEq] at hst
      subst hst
      exact h
    · simp at hst

theorem run_holds_fill (N B T : Nat) :
    ∀ (acts : List Action) (s t : WState), (∀ j, j < T → s.m.file[j]? = some FILL) →
      run N B s acts = some t → ∀ j, j < T → t.m.file[j]? = some FILL := by
  intro acts
  induction acts with
  | nil =>
    intro s t hs h
    simp only [run, Option.some.injEq] at h
    rw [← h]
    exact hs
  | cons a rest ih =>
    intro s t hs h
    simp only [run] at h
    cases hst : step N B s a with
    | none => rw [hst] at h; simp at h
    | some u =>
      rw [hst] at h
      exact ih u t (step_holds_fill N B T s u a hs hst) h

theorem pc_inv_unmapped (N : Nat) (s : WState) (h : pc_inv N s)
    (hm : s.m.mapped = false) : s.m.active_map = 0 := by
  obtain ⟨pc, i, j, m, lock⟩ := s
  cases pc <;> simp only [pc_inv] at h <;> simp_all

/-- In every state that the writer with fill bound `B` reaches from the file
that test_mmap1 makes for a size `S` in the range of `int`, an access below `S`
shows the fill byte when the mapping exists and faults otherwise. -/
theorem access_in_run (S N B pagesize : Nat) (hS : (S : Int) < 2 ^ 31)
    (acts : List Action) (s : WState)
    (h : run N B (WState.start (mkfile (long_to_int (S : Int)))) acts = some s)
    (j : Nat) (hj : j < S) :
    s.m.file[j]? = some FILL ∧
    access_of pagesize s.m j =
      some (if s.m.mapped then Access.Ok FILL else Access.Faulted) := by
  have h1 := run_holds_fill N B S acts _ s (file_in_range S hS) h
  have h2 := pc_inv_run N B acts _ s (pc_inv_start N _) h
  exact ⟨h1 j hj, access_of_fill pagesize S s.m h1 (pc_inv_unmapped N s h2) j hj⟩

/-- C8 (scenario C, as the code behaves): take a file size `S` in the range of
`int` and a writer whose fill loop stores only at the offsets 0 to `S - 2`, and
let the reader make each of its accesses in some state that this writer reaches
from the file test_mmap1 makes.  In each such state every offset below `S` holds
the fill byte, which mkfile wrote; an access shows the fill byte when the
mapping exists and is a recovered fault when it does not; a pass made while the
mapping exists completes over all `S` offsets without a mismatch; read_mem
exits with the null status and the driver reports no failure for it. -/
theorem skip_final_byte_undetected (S N pagesize : Nat) (sched : Nat → List Action)
    (st : Nat → WState) (mem : Nat → Nat → Access) (pf : Nat → Bool)
    (sigs : List (Int × Int)) (hS : (S : Int) < 2 ^ 31)
    (hrun : ∀ k, run N (S - 1) (WState.start (mkfile (long_to_int (S : Int)))) (sched k) =
      some (st k))
    (hmem : reads_in pagesize (fun k => (st k).m) mem) :
    (∀ k j, j < S → (st k).m.file[j]? = some FILL) ∧
    (∀ k j, j < S → (st k).m.mapped = true → mem k j = Access.Ok FILL) ∧
    (∀ k j, j < S → (st k).m.mapped = false → mem k j = Access.Faulted) ∧
    (∀ k, (∀ t, t < S → (st (k + t)).m.mapped = true) →
      read_pass mem S 0 k =
        (PassEnd.completed, (List.range S).map (fun t => (t, Access.Ok FILL)))) ∧
    (read_mem mem pf S N).status = 0 ∧
    (∀ x ∈ (read_mem mem pf S N).trace, ¬ is_mismatch x) ∧
    join_reports ⟨0, (read_mem mem pf S N).status, sigs⟩ = [] := by
  have hacc : ∀ k j, j < S →
      mem k j = (if (st k).m.mapped then Access.Ok FILL else Access.Faulted) := by
    intro k j hj
    exact hmem k j _ (access_in_run S N (S - 1) pagesize hS (sched k) (st k) (hrun k) j hj).2
  have hclean := read_mem_clean mem pf S N (by
    intro t j b hj hb
    rw [hacc t j hj] at hb
    split at hb
    · simp only [Access.Ok.injEq] at hb
      exact hb.symm
    · simp at hb)
  refine ⟨fun k j hj =>
      (access_in_run S N (S - 1) pagesize hS (sched k) (st k) (hrun k) j hj).1,
    ?_, ?_, ?_, hclean.1, hclean.2.2, ?_⟩
  · intro k j hj hm
    rw [hacc k j hj, if_pos hm]
  · intro k j hj hm
    rw [hacc k j hj, hm]
    rfl
  · intro k hk
    rw [read_pass_full mem S S 0 k (by omega), List.range_eq_range']
    · rfl
    · intro t ht
      rw [Nat.zero_add, hacc (k + t) t (by omega), if_pos (hk t (by omega))]
  · rw [hclean.1]
    rfl

/-- Instance of C8: file size 2, one iteration, pages of 4096 bytes; every
access of the reader is made after the writer has stored at offset 0 and left
its fill loop. -/
theorem skip_final_byte_undetected_witness :
    (read_mem
      (fun _ j => (access_of 4096 ⟨[97, 97, 0], true, 1⟩ j).getD Access.Faulted)
      (fun _ => false) 2 1).status = 0 := by
  have hf : mkfile (long_to_int ((2 : Nat) : Int)) = [97, 97, 0] := by
    rw [(mkfile_file_size_in_range 2 (by decide)).1]
    rfl
  have hr : run 1 (2 - 1) (WState.start [97, 97, 0])
      [Action.writer true, Action.writer true, Action.writer true,
        Action.writer true, Action.writer true, Action.writer true, Action.writer true,
        Action.writer true, Action.writer true, Action.writer true, Action.writer true] =
      some ⟨Pc.lock2, 0, 1, ⟨[97, 97, 0], true, 1⟩, none⟩ := by decide
  exact (skip_final_byte_undetected 2 1 4096
    (fun _ => [Action.writer true, Action.writer true, Action.writer true,
      Action.writer true, Action.writer true, Action.writer true, Action.writer true,
      Action.writer true, Action.writer true, Action.writer true, Action.writer true])
    (fun _ => ⟨Pc.lock2, 0, 1, ⟨[97, 97, 0], true, 1⟩, none⟩)
    (fun _ j => (access_of 4096 ⟨[97, 97, 0], true, 1⟩ j).getD Access.Faulted)
    (fun _ => false) [] (by decide)
    (fun _ => by rw [hf]; exact hr)
    (fun k j a ha => by simp only [ha, Option.getD_some])).2.2.2.2.1

/-- C8 (scenario C, as stated) fails for the file size 2, one iteration.  The
writer that leaves out the last byte stores at offset 0 only and leaves its fill
loop; the file then holds the fill byte at the offsets 0 and 1, the second one
from mkfile.  The pass of the reader made in this state completes over both
offsets, the exit status of read_mem is null and not the sentinel, and the
driver reports nothing for it. -/
theorem skip_final_byte_counterexample :
    mkfile (long_to_int 2) = [97, 97, 0] ∧
    run 1 (2 - 1) (WState.start (mkfile (long_to_int 2)))
      [Action.writer true, Action.writer true, Action.writer true,
        Action.writer true, Action.writer true, Action.writer true, Action.writer true,
        Action.writer true, Action.writer true, Action.writer true, Action.writer true] =
      some ⟨Pc.lock2, 0, 1, ⟨[97, 97, 0], true, 1⟩, none⟩ ∧
    read_pass (fun _ j => (access_of 4096 ⟨[97, 97, 0], true, 1⟩ j).getD Access.Faulted)
      2 0 0 = (PassEnd.completed, [(0, Access.Ok 97), (1, Access.Ok 97)]) ∧
    (read_mem (fun _ j => (access_of 4096 ⟨[97, 97, 0], true, 1⟩ j).getD Access.Faulted)
      (fun _ => false) 2 1).status ≠ -1 ∧
    join_reports ⟨0,
      (read_mem (fun _ j => (access_of 4096 ⟨[97, 97, 0], true, 1⟩ j).getD Access.Faulted)
        (fun _ => false) 2 1).status, []⟩ = [] := by
  have hf : mkfile (long_to_int 2) = [97, 97, 0] := by
    have h2 : long_to_int 2 = ((2 : Nat) : Int) := by decide
    rw [h2, mkfile_nat]
    rfl
  have hmem : ∀ t j, j < 2 →
      (fun (_ : Nat) j => (access_of 4096 ⟨[97, 97, 0], true, 1⟩ j).getD Access.Faulted) t j =
        Access.Ok FILL := by
    intro t j hj
    interval_cases j <;> rfl
  have hpass := read_pass_full
    (fun _ j => (access_of 4096 ⟨[97, 97, 0], true, 1⟩ j).getD Access.Faulted) 2 2 0 0
    (by omega) (fun t ht => hmem (0 + t) (0 + t) (by omega))
  have hstat := (read_mem_clean
    (fun _ j => (access_of 4096 ⟨[97, 97, 0], true, 1⟩ j).getD Access.Faulted)
    (fun _ => false) 2 1 (by
      intro t j b hj hb
      rw [hmem t j hj] at hb
      simp only [Access.Ok.injEq] at hb
      exact hb.symm)).1
  refine ⟨hf, by rw [hf]; decide, ?_, ?_, ?_⟩
  · rw [hpass]
    rfl
  · rw [hstat]
    decide
  · rw [hstat]
    rfl

end Mmap1
